import Mathlib

/-!
Verification of the patent-abstract resolution and merge subsystem of the
torir-util repository (patent_analyzer: patent_data_fetcher.py,
abstract_integrator.py, relevance_scorer.py, patent_orchestrator.py).

The Python records are loosely-typed dictionaries, so records are embedded as
association lists of string keys and `PyVal` values with Python dict-update
semantics (an existing key is overwritten in place, a new key is appended).
The Abstract Store directory (one JSON file per patent identifier) is embedded
as a map from file base name to the decoded record; a file that is missing or
fails to decode is `none`, matching `_load_existing_abstract` and the
glob-loading loop of `integrate_abstracts`, which both treat such files as
absent.  The external scraper subprocess is an oracle parameter
`fetch : PyVal -> FetchOutcome` covering the four observable outcomes of the
`subprocess.run` call (ok exit with parsed JSON, non-zero exit with stderr,
timeout, any other exception - including an unparseable stdout).  Code that
raises an exception that the source does not catch is embedded as `Option`
(`none` = the exception propagates).  Sleeps and logging have no data effect
and are dropped.
-/

/-- Embedded Python value: the subset of JSON/Python values the pipeline
actually stores in its records (strings, integers, None, and the float NaN
that a NaN score in the keyword configuration propagates into
`relevance_score`). -/
inductive PyVal where
  | vNone : PyVal
  | vStr : String → PyVal
  | vInt : ℤ → PyVal
  | vNan : PyVal
deriving DecidableEq, Repr

open PyVal

/-- A Python dict embedded as an association list in insertion order. -/
abbrev PyDict := List (String × PyVal)

/-- Python truthiness of an embedded value (`bool(x)`): None and empty string
and zero are falsy; NaN is truthy in Python. -/
def truthy : PyVal → Bool
  | vNone => false
  | vStr s => s ≠ ""
  | vInt n => n ≠ 0
  | vNan => true

/-- `d.get(k)` - first binding of `k`, defaulting to None. -/
def dictGet (d : PyDict) (k : String) : PyVal :=
  (List.lookup k d).getD vNone

/-- `d.get(k, dflt)`. -/
def dictGetD (d : PyDict) (k : String) (dflt : PyVal) : PyVal :=
  (List.lookup k d).getD dflt

/-- `d[k] = v` on a Python dict: overwrite an existing binding in place,
otherwise append the new binding. -/
def setKey (d : PyDict) (k : String) (v : PyVal) : PyDict :=
  if (List.lookup k d).isSome then
    d.map (fun kv => if kv.1 = k then (k, v) else kv)
  else
    d ++ [(k, v)]

/-- `d.update({...})`: fold `setKey` over the new bindings in order. -/
def pyUpdate (d : PyDict) (kvs : List (String × PyVal)) : PyDict :=
  kvs.foldl (fun acc kv => setKey acc kv.1 kv.2) d

/-- Python `str(x)` / f-string interpolation for the embedded values. -/
def pyFStr : PyVal → String
  | vNone => "None"
  | vStr s => s
  | vInt n => toString n
  | vNan => "nan"

/-- The default whitespace characters of Python `str.strip()` (ASCII part). -/
def isPyWs (c : Char) : Bool :=
  c = ' ' ∨ c = '\t' ∨ c = '\n' ∨ c = '\x0d' ∨ c = '\x0b' ∨ c = '\x0c'

/-- `str.strip()` on a character list. -/
def stripL (l : List Char) : List Char :=
  ((l.dropWhile isPyWs).reverse.dropWhile isPyWs).reverse

/-- `str.strip()`. -/
def pyStrip (s : String) : String :=
  String.mk (stripL s.data)

/-- `str.lower()` (ASCII model). -/
def pyLower (s : String) : String :=
  String.mk (s.data.map Char.toLower)

/-! ## URL validation (`PatentDataFetcher.validate_url`, urllib.parse.urlparse) -/

/-- Split a character list at the first occurrence of `sep`; `none` when `sep`
does not occur. -/
def splitOnFirst (sep : Char) : List Char → Option (List Char × List Char)
  | [] => none
  | c :: cs =>
    if c = sep then some ([], cs)
    else (splitOnFirst sep cs).map (fun pr => (c :: pr.1, pr.2))

/-- Characters allowed after the first letter of a URL scheme. -/
def isSchemeChar (c : Char) : Bool :=
  c.isAlphanum || c = '+' || c = '-' || c = '.'

/-- urlparse scheme extraction: a leading `letter (letter|digit|+|-|.)*`
before a colon is the scheme (lowercased); otherwise there is no scheme. -/
def splitScheme (u : List Char) : List Char × List Char :=
  match splitOnFirst ':' u with
  | some (pre, post) =>
    match pre with
    | [] => ([], u)
    | c :: cs =>
      if c.isAlpha ∧ cs.all isSchemeChar then ((c :: cs).map Char.toLower, post)
      else ([], u)
  | none => ([], u)

/-- urlparse netloc extraction: after `//`, up to the next `/`, `?` or `#`. -/
def splitNetloc (u : List Char) : List Char × List Char :=
  match u with
  | '/' :: '/' :: r =>
    (r.takeWhile (fun c => ¬(c = '/' ∨ c = '?' ∨ c = '#')),
     r.dropWhile (fun c => ¬(c = '/' ∨ c = '?' ∨ c = '#')))
  | _ => ([], u)

/-- First index of `c` in `l`, if any. -/
def idxOfChar (c : Char) : List Char → Option ℕ
  | [] => none
  | x :: xs => if x = c then some 0 else (idxOfChar c xs).map (· + 1)

/-- urlparse `_splitparams`: when the last path segment holds a `;`, the part
after the first such `;` is split off as params. -/
def paramsSplit (p : List Char) : List Char :=
  if (idxOfChar ';' p).isSome then
    if (idxOfChar '/' p).isSome then
      let j := p.length - 1 - ((idxOfChar '/' p.reverse).getD 0)
      match idxOfChar ';' (p.drop j) with
      | some k => p.take (j + k)
      | none => p
    else p.take ((idxOfChar ';' p).getD 0)
  else p

/-- urlparse restricted to the fields `validate_url` reads: scheme, netloc and
path (params, query and fragment stripped). -/
def urlparseM (u : List Char) : List Char × List Char × List Char :=
  let sp := splitScheme u
  let nl := splitNetloc sp.2
  let noFrag := match splitOnFirst '#' nl.2 with
    | some pr => pr.1
    | none => nl.2
  let noQuery := match splitOnFirst '?' noFrag with
    | some pr => pr.1
    | none => noFrag
  (sp.1, nl.1, paramsSplit noQuery)

/-- `PatentDataFetcher.validate_url`: scheme http or https, netloc exactly
`patents.google.com`, and `/patent/` occurring in the path.  A non-string
argument makes `urlparse` raise, which the source catches and turns into
False. -/
def validateUrl : PyVal → Bool
  | vStr s =>
    let pr := urlparseM s.data
    (pr.1 = "http".data ∨ pr.1 = "https".data) ∧
      pr.2.1 = "patents.google.com".data ∧ "/patent/".data <:+: pr.2.2
  | _ => false

/-- `PatentDataFetcher._validate_patent_record`: id and result_link truthy and
the URL check passes. -/
def validatePatentRecord (p : PyDict) : Bool :=
  truthy (dictGet p "id") && truthy (dictGet p "result_link") &&
    validateUrl (dictGet p "result_link")

/-! ## Abstract Store and Abstract Fetcher
(`PatentDataFetcher._fetch_abstract_for_patent`) -/

/-- The Abstract Store directory: file base name to decoded record; `none`
covers both a missing file and one whose JSON fails to decode (the loaders
treat both as absent). -/
abbrev Store := String → Option PyDict

/-- `_save_abstract_to_file` (write errors are swallowed by the source). -/
def storeSet (st : Store) (key : String) (rec : PyDict) : Store :=
  fun k => if k = key then some rec else st k

/-- The observable outcomes of the `subprocess.run` scraper invocation:
zero exit with a JSON object on stdout, non-zero exit carrying stderr,
`subprocess.TimeoutExpired`, or any other exception (which includes a zero
exit whose stdout fails to parse as a JSON object). -/
inductive FetchOutcome where
  | success : PyDict → FetchOutcome
  | errorExit : String → FetchOutcome
  | timeout : FetchOutcome
  | exc : String → FetchOutcome

/-- The cache test
`existing and existing.get("Abstract") and existing.get("Abstract").strip()`:
`some true` = cache hit, `some false` = proceed to fetch, `none` = the
source raises AttributeError (a truthy non-string Abstract has no `.strip`),
which is not caught inside `_fetch_abstract_for_patent`. -/
def cacheDecision : Option PyDict → Option Bool
  | none => some false
  | some rec =>
    if rec = [] then some false
    else
      match dictGet rec "Abstract" with
      | vNone => some false
      | vStr s => some (stripL s.data ≠ [])
      | vInt n => if n = 0 then some false else none
      | vNan => none

/-- The six enrichment bindings added by the cached-file branch. -/
def cachedEnrichment (rec : PyDict) : List (String × PyVal) :=
  [("abstract", dictGet rec "Abstract"),
   ("abstract_title", dictGet rec "Title"),
   ("abstract_url", dictGet rec "URL"),
   ("abstract_error", dictGet rec "Error"),
   ("abstract_retry_count", dictGetD rec "RetryCount" (vInt 0)),
   ("abstract_source", vStr "cached_file")]

/-- The six enrichment bindings added after a successful fresh fetch. -/
def fetchedEnrichment (d : PyDict) : List (String × PyVal) :=
  [("abstract", dictGet d "Abstract"),
   ("abstract_title", dictGet d "Title"),
   ("abstract_url", dictGet d "URL"),
   ("abstract_error", vNone),
   ("abstract_retry_count", dictGetD d "RetryCount" (vInt 0)),
   ("abstract_source", vStr "newly_fetched")]

/-- The six enrichment bindings added on a failed fetch, tagged with the
matching source value. -/
def failureEnrichment (err : String) (tag : String) : List (String × PyVal) :=
  [("abstract", vNone),
   ("abstract_title", vNone),
   ("abstract_url", vNone),
   ("abstract_error", vStr err),
   ("abstract_retry_count", vInt 0),
   ("abstract_source", vStr tag)]

/-- The AbstractRecord persisted to the Store on a failed fetch. -/
def failureRecord (url : PyVal) (err : String) : PyDict :=
  [("Abstract", vNone), ("Title", vNone), ("URL", url),
   ("Error", vStr err), ("RetryCount", vInt 0)]

/-- `PatentDataFetcher._fetch_abstract_for_patent`.  Returns the enriched
record, the Store after the call, and whether the external scraper was
invoked; `none` when the uncaught cache-test AttributeError propagates. -/
def fetchAbstractForPatent (st : Store) (fetch : PyVal → FetchOutcome)
    (p : PyDict) : Option (PyDict × Store × Bool) :=
  let pid := dictGet p "id"
  let purl := dictGet p "result_link"
  let key := pyFStr pid
  let existing := st key
  match cacheDecision existing with
  | none => none
  | some true =>
    some (pyUpdate p (cachedEnrichment (existing.getD [])), st, false)
  | some false =>
    match fetch purl with
    | FetchOutcome.success d =>
      some (pyUpdate p (fetchedEnrichment d), storeSet st key d, true)
    | FetchOutcome.errorExit stderr =>
      some (pyUpdate p (failureEnrichment (pyStrip stderr) "error_saved"),
            storeSet st key (failureRecord purl (pyStrip stderr)), true)
    | FetchOutcome.timeout =>
      some (pyUpdate p (failureEnrichment "Timeout while fetching abstract"
              "timeout_saved"),
            storeSet st key
              (failureRecord purl "Timeout while fetching abstract"), true)
    | FetchOutcome.exc msg =>
      some (pyUpdate p (failureEnrichment msg "exception_saved"),
            storeSet st key (failureRecord purl msg), true)

/-! ## Batch Resolver (`PatentDataFetcher.extract_patent_data`) -/

/-- Python list slicing `l[s:e]` (no step): negative indices count from the
end, then both are clamped to the list. -/
def pySlice (l : List α) (s e : ℤ) : List α :=
  let n : ℤ := l.length
  let s' : ℤ := if s < 0 then max 0 (n + s) else min s n
  let e' : ℤ := if e < 0 then max 0 (n + e) else min e n
  (l.drop s'.toNat).take (e' - s').toNat

/-- The per-record loop of `extract_patent_data`: enriched records in order,
final Store, and the sublist of batch records for which the external scraper
was invoked.  `none` when a record's cache test raises. -/
def runBatch (st : Store) (fetch : PyVal → FetchOutcome) :
    List PyDict → Option (List PyDict × Store × List PyDict)
  | [] => some ([], st, [])
  | p :: ps =>
    match fetchAbstractForPatent st fetch p with
    | none => none
    | some (e, st', inv) =>
      match runBatch st' fetch ps with
      | none => none
      | some (es, st'', log) =>
        some (e :: es, st'', if inv then p :: log else log)

/-- Result of one `extract_patent_data` call: the returned enriched list, the
Store afterwards, the batch window actually handed to the Abstract Fetcher,
the records for which the external scraper ran, and the two run counters. -/
structure ExtractResult where
  enhanced : List PyDict
  finalStore : Store
  touched : List PyDict
  fetched : List PyDict
  processedCount : ℕ
  skippedCount : ℕ

/-- `PatentDataFetcher.extract_patent_data` with the JSON input file abstracted
to its decoded record list: validate, window with
`valid[max(0,start-1) : min(max(0,start-1)+batch, total)]` (Python slice), and
fetch each windowed record in order. -/
def extractPatentData (st : Store) (fetch : PyVal → FetchOutcome)
    (patents : List PyDict) (startNumber : ℤ) (batchSize : Option ℤ) :
    Option ExtractResult :=
  let valid := patents.filter validatePatentRecord
  let total : ℤ := valid.length
  let startIdx : ℤ := max 0 (startNumber - 1)
  let endIdx : ℤ := match batchSize with
    | some b => min (startIdx + b) total
    | none => total
  let batch := pySlice valid startIdx endIdx
  (runBatch st fetch batch).map (fun r =>
    { enhanced := r.1, finalStore := r.2.1, touched := batch,
      fetched := r.2.2,
      processedCount := r.1.countP (fun e =>
        dictGet e "abstract_source" = vStr "newly_fetched" ∨
        dictGet e "abstract_source" = vStr "error_saved" ∨
        dictGet e "abstract_source" = vStr "timeout_saved" ∨
        dictGet e "abstract_source" = vStr "exception_saved"),
      skippedCount := r.1.countP (fun e =>
        dictGet e "abstract_source" = vStr "cached_file") })

/-! ## Merger (`AbstractIntegrator.integrate_abstracts`) -/

/-- Look a patent id value up among the Store files: dict membership
`patent_id in abstracts` can only hit for a string id (file base names are
strings). -/
def storeLookupVal (st : Store) : PyVal → Option PyDict
  | vStr s => st s
  | _ => none

/-- The six enrichment bindings the Merger adds when the id has a Store file. -/
def integratedEnrichment (ad : PyDict) : List (String × PyVal) :=
  [("abstract", dictGet ad "Abstract"),
   ("abstract_title", dictGet ad "Title"),
   ("abstract_url", dictGet ad "URL"),
   ("abstract_error", dictGet ad "Error"),
   ("abstract_retry_count", dictGetD ad "RetryCount" (vInt 0)),
   ("abstract_source", vStr "integrated_from_file")]

/-- The six enrichment bindings the Merger adds when the id has no Store
file. -/
def notFoundEnrichment : List (String × PyVal) :=
  [("abstract", vNone),
   ("abstract_title", vNone),
   ("abstract_url", vNone),
   ("abstract_error", vStr "Abstract file not found"),
   ("abstract_retry_count", vInt 0),
   ("abstract_source", vStr "not_found")]

/-- The loop body of `integrate_abstracts`: one input record left-joined by id
against the Store files. -/
def joinOne (abstracts : Store) (p : PyDict) : PyDict :=
  match storeLookupVal abstracts (dictGet p "id") with
  | some ad => pyUpdate p (integratedEnrichment ad)
  | none => pyUpdate p notFoundEnrichment

/-- `AbstractIntegrator.integrate_abstracts` (the append loop over the full
patent list; file reading and writing abstracted to the decoded data). -/
def integrateAbstracts (abstracts : Store) (patents : List PyDict) :
    List PyDict :=
  patents.foldl (fun acc p => acc ++ [joinOne abstracts p]) []

/-- One merge run as a state transformer on the Store: `integrate_abstracts`
contains no store write and no fetch call, so the Store after the run is the
input Store. -/
def integrateRun (abstracts : Store) (patents : List PyDict) :
    List PyDict × Store :=
  (integrateAbstracts abstracts patents, abstracts)

/-- Render one value in the written JSON. -/
def serializeVal : PyVal → String
  | vNone => "null"
  | vStr s => "\"" ++ s ++ "\""
  | vInt n => toString n
  | vNan => "NaN"

/-- Render one record in the written JSON (keys in stored order, as
`json.dump` emits them). -/
def serializeDict (d : PyDict) : String :=
  "\x7b" ++ String.intercalate ", "
    (d.map (fun kv => "\"" ++ kv.1 ++ "\": " ++ serializeVal kv.2)) ++ "\x7d"

/-- Render the output record list: a deterministic model of the
`json.dump(..., indent=2, ensure_ascii=False)` serialization - the written
bytes are a function of the record list alone. -/
def serializeRecords (l : List PyDict) : String :=
  "[" ++ String.intercalate ", " (l.map serializeDict) ++ "]"

/-! ## Scorer (`RelevanceScorer`) -/

/-- A Python number as the scorer sees it: an integer score, or the float NaN
that a NaN weight in the keyword configuration propagates (`0 + n*nan = nan`). -/
inductive PyNum where
  | i : ℤ → PyNum
  | nan : PyNum
deriving DecidableEq, Repr

/-- Python `+` on scores: NaN absorbs. -/
def numAdd : PyNum → PyNum → PyNum
  | PyNum.i a, PyNum.i b => PyNum.i (a + b)
  | _, _ => PyNum.nan

/-- Python `category_matches * category_score`: an integer times NaN is NaN
(IEEE: `0 * nan = nan`). -/
def numMul (n : ℕ) : PyNum → PyNum
  | PyNum.i z => PyNum.i (n * z)
  | PyNum.nan => PyNum.nan

/-- Embed a score into a record value. -/
def pyOfNum : PyNum → PyVal
  | PyNum.i z => vInt z
  | PyNum.nan => vNan

/-- One entry of `keyword_categories` in the scoring configuration (the name
is only logged; a non-numeric score would raise in the source and is outside
the model). -/
structure Category where
  name : String
  score : PyNum
  keywords : List String

/-- The scan loop of `len(re.findall(re.escape(needle), hay))`: count
non-overlapping leftmost occurrences of a non-empty literal needle. -/
def findallGo (np : List Char) : ℕ → List Char → ℕ
  | _, [] => 0
  | 0, _ => 0
  | fuel + 1, c :: rest =>
    if np.isPrefixOf (c :: rest) then
      1 + findallGo np fuel (rest.drop (np.length - 1))
    else
      findallGo np fuel rest

/-- `len(re.findall(re.escape(needle), hay))` for a literal pattern; the empty
pattern matches at every position and at the end. -/
def findallCount (np hay : List Char) : ℕ :=
  if np = [] then hay.length + 1 else findallGo np hay.length hay

/-- The `or ""` fallback: `patent.get(k, "") or ""`. -/
def pyOrEmpty (v : PyVal) : PyVal :=
  if truthy v then v else vStr ""

/-- The lowercased `f"{title} {abstract}"` text of one record. -/
def combinedText (p : PyDict) : String :=
  pyLower
    (pyFStr (pyOrEmpty (dictGetD p "title" (vStr ""))) ++ " " ++
     pyFStr (pyOrEmpty (dictGetD p "abstract" (vStr ""))))

/-- `RelevanceScorer._calculate_patent_score`: per category, count the
keywords with at least one case-insensitive occurrence in the combined text,
multiply by the category score, and accumulate. -/
def calcPatentScore (cfg : List Category) (p : PyDict) : PyNum :=
  let combined := combinedText p
  cfg.foldl
    (fun acc cat =>
      let m := cat.keywords.foldl
        (fun cnt kw =>
          if 0 < findallCount (pyLower kw).data combined.data then cnt + 1
          else cnt) 0
      numAdd acc (numMul m cat.score))
    (PyNum.i 0)

/-- The sort key `lambda x: x.get("relevance_score", 0)`. -/
def scoreKey (d : PyDict) : PyVal :=
  dictGetD d "relevance_score" (vInt 0)

/-- Python `<` on the sort keys: integer comparison; any comparison involving
NaN is false.  (Comparing an integer with a string raises in Python; the
scorer only ever sorts numeric keys, so those branches are unreachable
there.) -/
def pyLt : PyVal → PyVal → Bool
  | vInt a, vInt b => a < b
  | _, _ => false

/-- Binary-search insertion point of CPython's `binarysort`: fueled so that it
reduces; the fuel passed always bounds `r - l`. -/
def bsearchFuel (ltb : α → α → Bool) (xs : List α) (pivot : α) :
    ℕ → ℕ → ℕ → ℕ
  | 0, l, _ => l
  | fuel + 1, l, r =>
    if l < r then
      let m := l + (r - l) / 2
      if ltb pivot (xs.getD m pivot) then bsearchFuel ltb xs pivot fuel l m
      else bsearchFuel ltb xs pivot fuel (m + 1) r
    else l

/-- Binary insertion of one element into the sorted region, as CPython's
`binarysort` does. -/
def binInsert (ltb : α → α → Bool) (sorted : List α) (x : α) : List α :=
  let p := bsearchFuel ltb sorted x (sorted.length + 1) 0 sorted.length
  sorted.take p ++ [x] ++ sorted.drop p

/-- The initial strictly-descending run of `count_run` (in encounter order). -/
def runSplitDesc (ltb : α → α → Bool) : α → List α → List α × List α
  | prev, [] => ([prev], [])
  | prev, x :: xs =>
    if ltb x prev then
      let pr := runSplitDesc ltb x xs
      (prev :: pr.1, pr.2)
    else ([prev], x :: xs)

/-- The initial nondescending run of `count_run`. -/
def runSplitAsc (ltb : α → α → Bool) : α → List α → List α × List α
  | prev, [] => ([prev], [])
  | prev, x :: xs =>
    if ltb x prev then ([prev], x :: xs)
    else
      let pr := runSplitAsc ltb x xs
      (prev :: pr.1, pr.2)

/-- CPython `list.sort` (ascending) for lists below the 64-element merge
threshold: find the initial run (reversing a strictly descending one), then
binary-insert the remaining elements.  This is exact for the short lists the
claims exercise; for longer NaN-free keys any stable sort is extensionally
the same. -/
def cpListSort (ltb : α → α → Bool) : List α → List α
  | [] => []
  | x :: xs =>
    let run : List α × List α :=
      match xs with
      | [] => ([x], [])
      | y :: _ =>
        if ltb y x then
          let pr := runSplitDesc ltb x xs
          (pr.1.reverse, pr.2)
        else runSplitAsc ltb x xs
    run.2.foldl (binInsert ltb) run.1

/-- `l.sort(key=..., reverse=True)`: CPython reverses, sorts ascending
stably, and reverses back. -/
def pySortRev (ltb : α → α → Bool) (l : List α) : List α :=
  (cpListSort ltb l.reverse).reverse

/-- The element comparison of `scored_data.sort(key=..., reverse=True)`. -/
def scoreLtb (a b : PyDict) : Bool :=
  pyLt (scoreKey a) (scoreKey b)

/-- `RelevanceScorer.calculate_relevance_scores`: attach a score to a copy of
every record (append loop), then sort descending in place by
`x.get("relevance_score", 0)`. -/
def calcScores (cfg : List Category) (patents : List PyDict) : List PyDict :=
  let scored := patents.foldl
    (fun acc p =>
      acc ++ [setKey p "relevance_score" (pyOfNum (calcPatentScore cfg p))]) []
  pySortRev scoreLtb scored

/-! ## Orchestrator NaN filtering (`PatentOrchestrator._run_relevance_scorer`) -/

/-- `isinstance(p.get("relevance_score"), float) and math.isnan(...)`: among
the embedded values only NaN qualifies. -/
def isNanScore (p : PyDict) : Bool :=
  match List.lookup "relevance_score" p with
  | some vNan => true
  | _ => false

/-- The orchestrator's `valid_scored_data`: scored records whose score is not
the float NaN. -/
def orchestratorValid (scored : List PyDict) : List PyDict :=
  scored.filter (fun p => ¬isNanScore p)

/-- Total descending comparison used to model the NaN-free
`sorted(..., reverse=True)`: on integer keys it is exactly Python's ordering;
the other branches rank by constructor so the relation is total and
transitive (they are unreachable after the NaN filter). -/
def pyGeB (a b : PyVal) : Bool :=
  match a, b with
  | vInt x, vInt y => y ≤ x
  | vInt _, _ => false
  | _, vInt _ => true
  | _, _ => true

/-- Stable insertion of one element into a descending-sorted list. -/
def insDesc (x : PyDict) : List PyDict → List PyDict
  | [] => [x]
  | y :: ys => if pyGeB (scoreKey x) (scoreKey y) then x :: y :: ys
               else y :: insDesc x ys

/-- `sorted(valid, key=lambda x: x.get("relevance_score", 0), reverse=True)`
on a NaN-free list: Python's sort is stable, so on the total integer key
order it coincides with stable insertion sort, which is how it is embedded. -/
def insSortDesc (l : List PyDict) : List PyDict :=
  l.foldr insDesc []

/-- The orchestrator's `sorted_scored_data`. -/
def orchestratorSorted (scored : List PyDict) : List PyDict :=
  insSortDesc (orchestratorValid scored)

/-! ## Specification-side score definitions (for the refinement claim C6) -/

/-- Case-insensitive occurrence of a keyword in a text, as the spec words it. -/
def occursB (kw text : String) : Bool :=
  decide ((pyLower kw).data <:+: (pyLower text).data)

/-- The relevance score exactly as claim C6 words it: per category, the
number of distinct keywords occurring case-insensitively in the concatenation
of title and abstract, times the category weight. -/
def claimSpecScore (cfg : List Category) (p : PyDict) : PyNum :=
  let text := pyFStr (pyOrEmpty (dictGetD p "title" (vStr ""))) ++
    pyFStr (pyOrEmpty (dictGetD p "abstract" (vStr "")))
  cfg.foldl
    (fun acc cat =>
      numAdd acc (numMul (cat.keywords.dedup.countP (fun kw => occursB kw text))
        cat.score))
    (PyNum.i 0)

/-- The amended specification score: per category, the number of keyword-list
entries occurring case-insensitively in the space-joined title and abstract,
times the category weight. -/
def amendedSpecScore (cfg : List Category) (p : PyDict) : PyNum :=
  let text := pyFStr (pyOrEmpty (dictGetD p "title" (vStr ""))) ++ " " ++
    pyFStr (pyOrEmpty (dictGetD p "abstract" (vStr "")))
  cfg.foldl
    (fun acc cat =>
      numAdd acc (numMul (cat.keywords.countP (fun kw => occursB kw text))
        cat.score))
    (PyNum.i 0)

/-! ## Concrete instances used by witnesses and counterexamples -/

/-- The six enrichment key names added by the Fetcher and the Merger. -/
def enrichmentKeys : List String :=
  ["abstract", "abstract_title", "abstract_url", "abstract_error",
   "abstract_retry_count", "abstract_source"]

/-- An empty Abstract Store directory. -/
def emptyStore : Store := fun _ => none

/-- A scraper oracle that always times out. -/
def fetchTimeoutO : PyVal → FetchOutcome := fun _ => FetchOutcome.timeout

/-- A stored AbstractRecord with a non-blank Abstract. -/
def c1Rec : PyDict :=
  [("ID", vStr "P1"), ("Title", vStr "T1"), ("Abstract", vStr " An abstract. "),
   ("URL", vStr "u1"), ("Error", vNone), ("RetryCount", vInt 2)]

/-- A Store holding `c1Rec` under id P1. -/
def c1Store : Store := fun k => if k = "P1" then some c1Rec else none

/-- A patent record with id P1. -/
def c1Pat : PyDict :=
  [("id", vStr "P1"),
   ("result_link", vStr "https://patents.google.com/patent/P1/en"),
   ("title", vStr "t")]

/-- A patent record whose id has no Store file. -/
def c4Pat : PyDict := [("id", vStr "Q9"), ("title", vStr "t")]

/-- A valid patent record for a given id. -/
def mkPat (pid : String) : PyDict :=
  [("id", vStr pid),
   ("result_link", vStr ("https://patents.google.com/patent/" ++ pid ++ "/en"))]

/-- A cached AbstractRecord used for the windowing witness. -/
def c5CachedRec : PyDict :=
  [("Abstract", vStr "Cached text."), ("Title", vStr "CT"), ("URL", vStr "cu"),
   ("Error", vNone)]

/-- A Store where every id is cached. -/
def c5Store : Store := fun _ => some c5CachedRec

/-- Five valid patent records. -/
def c5Pats : List PyDict :=
  [mkPat "P1", mkPat "P2", mkPat "P3", mkPat "P4", mkPat "P5"]

/-- The result of `extract_patent_data(start=3, batch=2)` on `c5Pats` with
everything cached. -/
def c5Res : ExtractResult :=
  { enhanced := [pyUpdate (mkPat "P3") (cachedEnrichment c5CachedRec),
                 pyUpdate (mkPat "P4") (cachedEnrichment c5CachedRec)],
    finalStore := c5Store,
    touched := [mkPat "P3", mkPat "P4"],
    fetched := [],
    processedCount := 0,
    skippedCount := 2 }

/-- A record whose result_link has the wrong host. -/
def c8Bad : PyDict :=
  [("id", vStr "B1"), ("result_link", vStr "https://example.com/foo")]

/-- The result of a batch run over the single invalid record. -/
def c8Res : ExtractResult :=
  { enhanced := [], finalStore := emptyStore, touched := [], fetched := [],
    processedCount := 0, skippedCount := 0 }

/-- An uncached patent record. -/
def c9Pat : PyDict :=
  [("id", vStr "X1"),
   ("result_link", vStr "http://patents.google.com/patent/X1")]

/-- A patent record whose keys avoid the enrichment names. -/
def c10Pat : PyDict := [("id", vStr "A1"), ("title", vStr "T")]

/-- The enrichment of `c10Pat` after a timed-out fetch. -/
def c10Enh : PyDict :=
  pyUpdate c10Pat
    (failureEnrichment "Timeout while fetching abstract" "timeout_saved")

/-- The Store after the timed-out fetch for `c10Pat`. -/
def c10StoreAfter : Store :=
  storeSet emptyStore "A1"
    (failureRecord (dictGet c10Pat "result_link")
      "Timeout while fetching abstract")

/-- One keyword category whose single keyword spans the title/abstract
boundary of `c6Rec`. -/
def c6Cfg : List Category := [⟨"AI", PyNum.i 5, ["ab"]⟩]

/-- A record with title `a` and abstract `b`. -/
def c6Rec : PyDict := [("title", vStr "a"), ("abstract", vStr "b")]

/-- A category listing the same keyword twice. -/
def c6DupCfg : List Category := [⟨"AI", PyNum.i 5, ["neural", "neural"]⟩]

/-- A record whose title is the duplicated keyword. -/
def c6DupRec : PyDict := [("title", vStr "neural")]

/-- The category of the worked score example in the claim. -/
def c6AICfg : List Category := [⟨"AI", PyNum.i 5, ["neural", "learning"]⟩]

/-- A record whose abstract holds `learning` twice. -/
def c6AIRec : PyDict :=
  [("title", vStr "Neural network"),
   ("abstract", vStr "Deep learning improves learning speed.")]

/-- A record whose id and title are the given string. -/
def c7Rec (s : String) : PyDict := [("id", vStr s), ("title", vStr s)]

/-- A configuration holding a NaN-weighted category. -/
def c7CexCfg : List Category := [⟨"B", PyNum.nan, ["kb"]⟩]

/-- Two records scored under `c7CexCfg` (both scores come out NaN). -/
def c7CexInp : List PyDict := [c7Rec "kb", c7Rec "kx"]

/-- A NaN-free configuration. -/
def c7WCfg : List Category := [⟨"E", PyNum.i 7, ["ke"]⟩]

/-- Two records scored under `c7WCfg` (scores 0 and 7). -/
def c7WInp : List PyDict := [c7Rec "ka", c7Rec "ke"]

/-! ## Lemmas about the dict embedding -/

theorem lookup_cons_eq (k : String) (b : PyVal) (l : PyDict) :
    List.lookup k ((k, b) :: l) = some b := by
  simp [List.lookup]

theorem lookup_cons_ne (k a : String) (h : k ≠ a) (b : PyVal) (l : PyDict) :
    List.lookup k ((a, b) :: l) = List.lookup k l := by
  have hb : (k == a) = false := by simp [h]
  simp [List.lookup, hb]

theorem lookup_append_split (k : String) (l₁ l₂ : PyDict) :
    List.lookup k (l₁ ++ l₂) =
      match List.lookup k l₁ with
      | some v => some v
      | none => List.lookup k l₂ := by
  induction l₁ with
  | nil => simp
  | cons c rest ih =>
    rcases c with ⟨a, b⟩
    by_cases hk : k = a
    · subst hk
      rw [List.cons_append, lookup_cons_eq, lookup_cons_eq]
    · rw [List.cons_append, lookup_cons_ne _ _ hk, lookup_cons_ne _ _ hk, ih]

theorem lookup_map_setKey (d : PyDict) (k : String) (v : PyVal)
    (h : (List.lookup k d).isSome) :
    List.lookup k (d.map (fun kv => if kv.1 = k then (k, v) else kv)) =
      some v := by
  induction d with
  | nil => simp at h
  | cons c rest ih =>
    rcases c with ⟨a, b⟩
    by_cases hk : a = k
    · subst hk
      simp only [List.map_cons, if_true]
      rw [lookup_cons_eq]
    · have hk' : k ≠ a := fun h' => hk h'.symm
      simp only [List.map_cons]
      rw [if_neg (by simpa using hk)]
      rw [lookup_cons_ne _ _ hk'] at h
      rw [lookup_cons_ne _ _ hk']
      exact ih h

theorem lookup_map_setKey_ne (d : PyDict) (k : String) (v : PyVal)
    (k' : String) (h : k' ≠ k) :
    List.lookup k' (d.map (fun kv => if kv.1 = k then (k, v) else kv)) =
      List.lookup k' d := by
  induction d with
  | nil => simp
  | cons c rest ih =>
    rcases c with ⟨a, b⟩
    by_cases hk : a = k
    · subst hk
      simp only [List.map_cons, if_true]
      rw [lookup_cons_ne _ _ h, lookup_cons_ne _ _ h, ih]
    · simp only [List.map_cons]
      rw [if_neg (by simpa using hk)]
      by_cases ha : k' = a
      · subst ha
        rw [lookup_cons_eq, lookup_cons_eq]
      · rw [lookup_cons_ne _ _ ha, lookup_cons_ne _ _ ha, ih]

theorem lookup_setKey_self (d : PyDict) (k : String) (v : PyVal) :
    List.lookup k (setKey d k v) = some v := by
  unfold setKey
  split
  · rename_i h
    exact lookup_map_setKey d k v h
  · rename_i h
    rw [lookup_append_split]
    rw [Option.not_isSome_iff_eq_none] at h
    rw [h, lookup_cons_eq]

theorem lookup_setKey_ne (d : PyDict) (k : String) (v : PyVal) (k' : String)
    (h : k' ≠ k) : List.lookup k' (setKey d k v) = List.lookup k' d := by
  unfold setKey
  split
  · exact lookup_map_setKey_ne d k v k' h
  · rw [lookup_append_split]
    cases hd : List.lookup k' d with
    | some w => rfl
    | none => rw [lookup_cons_ne _ _ h]; rfl

theorem lookup_pyUpdate_notin (kvs : List (String × PyVal)) :
    ∀ (d : PyDict) (k : String), (∀ kv ∈ kvs, k ≠ kv.1) →
      List.lookup k (pyUpdate d kvs) = List.lookup k d := by
  induction kvs with
  | nil => intro d k _; rfl
  | cons kv rest ih =>
    intro d k h
    have h1 : List.lookup k (pyUpdate (setKey d kv.1 kv.2) rest) =
        List.lookup k (setKey d kv.1 kv.2) :=
      ih _ k (fun kv' hkv' => h kv' (List.mem_cons_of_mem _ hkv'))
    have h2 : List.lookup k (setKey d kv.1 kv.2) = List.lookup k d :=
      lookup_setKey_ne d kv.1 kv.2 k (h kv (List.mem_cons_self _ _))
    calc List.lookup k (pyUpdate d (kv :: rest))
        = List.lookup k (pyUpdate (setKey d kv.1 kv.2) rest) := rfl
      _ = List.lookup k d := by rw [h1, h2]

theorem lookup_pyUpdate_mem (kvs : List (String × PyVal)) :
    ∀ (d : PyDict) (k : String) (v : PyVal),
      (kvs.map Prod.fst).Nodup → (k, v) ∈ kvs →
      List.lookup k (pyUpdate d kvs) = some v := by
  induction kvs with
  | nil => intro d k v _ hm; cases hm
  | cons kv rest ih =>
    intro d k v hnd hm
    rcases List.mem_cons.mp hm with heq | hmem
    · have hk : k = kv.1 := by rw [← heq]
      have hnotin : ∀ kv' ∈ rest, k ≠ kv'.1 := by
        intro kv' hkv' hcontra
        have : kv.1 ∈ rest.map Prod.fst := by
          rw [← hk, hcontra]
          exact List.mem_map_of_mem Prod.fst hkv'
        exact (List.nodup_cons.mp (by simpa using hnd)).1 this
      have h1 : List.lookup k (pyUpdate d (kv :: rest)) =
          List.lookup k (setKey d kv.1 kv.2) :=
        lookup_pyUpdate_notin rest (setKey d kv.1 kv.2) k hnotin
      rw [h1, ← heq]
      exact lookup_setKey_self d k v
    · exact ih (setKey d kv.1 kv.2) k v (List.nodup_cons.mp (by simpa using hnd)).2 hmem

theorem foldl_append_eq_map (f : α → β) (l : List α) :
    ∀ acc, l.foldl (fun a x => a ++ [f x]) acc = acc ++ l.map f := by
  induction l with
  | nil => intro acc; simp
  | cons x xs ih =>
    intro acc
    simp only [List.foldl_cons, List.map_cons]
    rw [ih]
    simp

/-! ## Lemmas about keyword counting -/

theorem foldl_count (P : α → Prop) [DecidablePred P] (l : List α) :
    ∀ n : ℕ, l.foldl (fun c x => if P x then c + 1 else c) n =
      n + l.countP (fun x => decide (P x)) := by
  induction l with
  | nil => intro n; simp
  | cons x xs ih =>
    intro n
    simp only [List.foldl_cons, List.countP_cons]
    by_cases hx : P x
    · rw [if_pos hx, ih]
      simp [hx]
      omega
    · rw [if_neg hx, ih]
      simp [hx]

theorem isPrefixOf_spec (l₁ l₂ : List Char) :
    l₁.isPrefixOf l₂ = true ↔ l₁ <+: l₂ :=
  List.isPrefixOf_iff_prefix

theorem findallGo_pos (np : List Char) (hnp : np ≠ []) :
    ∀ (fuel : ℕ) (h : List Char), h.length ≤ fuel →
      (0 < findallGo np fuel h ↔ np <:+: h) := by
  intro fuel
  induction fuel with
  | zero =>
    intro h hlen
    have h0 : h = [] := List.eq_nil_of_length_eq_zero (Nat.le_zero.mp hlen)
    subst h0
    simp [findallGo, List.infix_nil, hnp]
  | succ fuel ih =>
    intro h hlen
    cases h with
    | nil => simp [findallGo, List.infix_nil, hnp]
    | cons c rest =>
      by_cases hp : np.isPrefixOf (c :: rest)
      · have hpre : np <+: (c :: rest) := (isPrefixOf_spec np (c :: rest)).mp hp
        obtain ⟨t, ht⟩ := hpre
        constructor
        · intro _
          exact ⟨[], t, by simpa using ht⟩
        · intro _
          simp [findallGo, hp]
      · have hnpre : ¬ np <+: (c :: rest) := fun hcon =>
          hp ((isPrefixOf_spec np (c :: rest)).mpr hcon)
        have hrest : rest.length ≤ fuel := by
          simp only [List.length_cons] at hlen
          omega
        have hstep : findallGo np (fuel + 1) (c :: rest) = findallGo np fuel rest := by
          simp [findallGo, hp]
        rw [hstep, ih rest hrest, List.infix_cons_iff]
        simp [hnpre]

theorem findall_pos (np h : List Char) : 0 < findallCount np h ↔ np <:+: h := by
  unfold findallCount
  by_cases hnp : np = []
  · subst hnp
    simp [List.nil_infix]
  · rw [if_neg hnp]
    exact findallGo_pos np hnp h.length h le_rfl

theorem score_cat_count (p : PyDict) (kws : List String) :
    kws.foldl
      (fun cnt kw =>
        if 0 < findallCount (pyLower kw).data (combinedText p).data then cnt + 1
        else cnt) 0 =
    kws.countP (fun kw =>
      occursB kw
        (pyFStr (pyOrEmpty (dictGetD p "title" (vStr ""))) ++ " " ++
         pyFStr (pyOrEmpty (dictGetD p "abstract" (vStr ""))))) := by
  rw [foldl_count]
  rw [Nat.zero_add]
  apply List.countP_congr
  intro kw _
  unfold occursB combinedText
  simp only [decide_eq_true_eq]
  exact findall_pos (pyLower kw).data _

/-! ## Lemmas about the descending insertion sort of the orchestrator -/

theorem pyGeB_total (a b : PyVal) : pyGeB a b = true ∨ pyGeB b a = true := by
  cases a <;> cases b
  all_goals simp [pyGeB]
  all_goals omega

theorem pyGeB_trans (a b c : PyVal) (h1 : pyGeB a b = true)
    (h2 : pyGeB b c = true) : pyGeB a c = true := by
  cases a <;> cases b <;> cases c
  all_goals simp_all [pyGeB]
  all_goals omega

theorem insDesc_perm (x : PyDict) (l : List PyDict) :
    List.Perm (insDesc x l) (x :: l) := by
  induction l with
  | nil => exact List.Perm.refl _
  | cons y ys ih =>
    unfold insDesc
    split
    · exact List.Perm.refl _
    · exact (ih.cons y).trans (List.Perm.swap x y ys)

theorem mem_insDesc (x : PyDict) (l : List PyDict) (z : PyDict) :
    z ∈ insDesc x l ↔ z = x ∨ z ∈ l := by
  rw [(insDesc_perm x l).mem_iff, List.mem_cons]

theorem insSortDesc_perm (l : List PyDict) :
    List.Perm (insSortDesc l) l := by
  induction l with
  | nil => exact List.Perm.refl _
  | cons x xs ih =>
    exact (insDesc_perm x (insSortDesc xs)).trans (ih.cons x)

theorem pairwise_insDesc (x : PyDict) (l : List PyDict)
    (hl : List.Pairwise (fun a b => pyGeB (scoreKey a) (scoreKey b) = true) l) :
    List.Pairwise (fun a b => pyGeB (scoreKey a) (scoreKey b) = true)
      (insDesc x l) := by
  induction l with
  | nil => simp [insDesc]
  | cons y ys ih =>
    rcases List.pairwise_cons.mp hl with ⟨hy, hys⟩
    unfold insDesc
    by_cases hxy : pyGeB (scoreKey x) (scoreKey y) = true
    · rw [if_pos hxy]
      refine List.pairwise_cons.mpr ⟨?_, hl⟩
      intro z hz
      rcases List.mem_cons.mp hz with rfl | hzys
      · exact hxy
      · exact pyGeB_trans _ _ _ hxy (hy z hzys)
    · rw [if_neg hxy]
      have hyx : pyGeB (scoreKey y) (scoreKey x) = true := by
        rcases pyGeB_total (scoreKey x) (scoreKey y) with h | h
        · exact absurd h hxy
        · exact h
      refine List.pairwise_cons.mpr ⟨?_, ih hys⟩
      intro z hz
      rcases (mem_insDesc x ys z).mp hz with rfl | hzys
      · exact hyx
      · exact hy z hzys

theorem pairwise_insSortDesc (l : List PyDict) :
    List.Pairwise (fun a b => pyGeB (scoreKey a) (scoreKey b) = true)
      (insSortDesc l) := by
  induction l with
  | nil => simp [insSortDesc]
  | cons x xs ih => exact pairwise_insDesc x (insSortDesc xs) ih

/-! ## Lemmas about the embedded CPython sort -/

theorem runSplitAsc_eq (ltb : α → α → Bool) :
    ∀ (xs : List α) (x : α),
      (runSplitAsc ltb x xs).1 ++ (runSplitAsc ltb x xs).2 = x :: xs := by
  intro xs
  induction xs with
  | nil => intro x; simp [runSplitAsc]
  | cons y ys ih =>
    intro x
    unfold runSplitAsc
    split
    · simp
    · simp only []
      rw [List.cons_append, ih y]

theorem runSplitDesc_eq (ltb : α → α → Bool) :
    ∀ (xs : List α) (x : α),
      (runSplitDesc ltb x xs).1 ++ (runSplitDesc ltb x xs).2 = x :: xs := by
  intro xs
  induction xs with
  | nil => intro x; simp [runSplitDesc]
  | cons y ys ih =>
    intro x
    unfold runSplitDesc
    split
    · simp only []
      rw [List.cons_append, ih y]
    · simp

theorem binInsert_perm (ltb : α → α → Bool) (s : List α) (x : α) :
    List.Perm (binInsert ltb s x) (x :: s) := by
  unfold binInsert
  have h1 : s.take (bsearchFuel ltb s x (s.length + 1) 0 s.length) ++ [x] ++
      s.drop (bsearchFuel ltb s x (s.length + 1) 0 s.length) =
      s.take (bsearchFuel ltb s x (s.length + 1) 0 s.length) ++
        x :: s.drop (bsearchFuel ltb s x (s.length + 1) 0 s.length) := by
    simp
  rw [h1]
  have h2 := @List.perm_middle _ x
    (s.take (bsearchFuel ltb s x (s.length + 1) 0 s.length))
    (s.drop (bsearchFuel ltb s x (s.length + 1) 0 s.length))
  rw [List.take_append_drop] at h2
  exact h2

theorem foldl_binInsert_perm (ltb : α → α → Bool) :
    ∀ (rest run : List α),
      List.Perm (rest.foldl (binInsert ltb) run) (run ++ rest) := by
  intro rest
  induction rest with
  | nil => intro run; simp
  | cons r rs ih =>
    intro run
    simp only [List.foldl_cons]
    have h1 := ih (binInsert ltb run r)
    have h2 : List.Perm (binInsert ltb run r ++ rs) ((r :: run) ++ rs) :=
      (binInsert_perm ltb run r).append_right rs
    have h3 : List.Perm ((r :: run) ++ rs) (run ++ r :: rs) := by
      rw [List.cons_append]
      exact List.perm_middle.symm
    exact h1.trans (h2.trans h3)

theorem cpListSort_perm (ltb : α → α → Bool) (l : List α) :
    List.Perm (cpListSort ltb l) l := by
  cases l with
  | nil => exact List.Perm.refl _
  | cons x xs =>
    cases xs with
    | nil => simp [cpListSort]
    | cons y ys =>
      by_cases hd : ltb y x = true
      · have hred : cpListSort ltb (x :: y :: ys) =
            List.foldl (binInsert ltb) (runSplitDesc ltb x (y :: ys)).1.reverse
              (runSplitDesc ltb x (y :: ys)).2 := by
          simp [cpListSort, hd]
        rw [hred]
        have h1 := foldl_binInsert_perm ltb (runSplitDesc ltb x (y :: ys)).2
          (runSplitDesc ltb x (y :: ys)).1.reverse
        have h2 : List.Perm
            ((runSplitDesc ltb x (y :: ys)).1.reverse ++
              (runSplitDesc ltb x (y :: ys)).2)
            ((runSplitDesc ltb x (y :: ys)).1 ++
              (runSplitDesc ltb x (y :: ys)).2) :=
          (List.reverse_perm _).append_right _
        have h3 : (runSplitDesc ltb x (y :: ys)).1 ++
            (runSplitDesc ltb x (y :: ys)).2 = x :: y :: ys :=
          runSplitDesc_eq ltb (y :: ys) x
        rw [h3] at h2
        exact h1.trans h2
      · have hred : cpListSort ltb (x :: y :: ys) =
            List.foldl (binInsert ltb) (runSplitAsc ltb x (y :: ys)).1
              (runSplitAsc ltb x (y :: ys)).2 := by
          simp [cpListSort, hd]
        rw [hred]
        have h1 := foldl_binInsert_perm ltb (runSplitAsc ltb x (y :: ys)).2
          (runSplitAsc ltb x (y :: ys)).1
        have h3 : (runSplitAsc ltb x (y :: ys)).1 ++
            (runSplitAsc ltb x (y :: ys)).2 = x :: y :: ys :=
          runSplitAsc_eq ltb (y :: ys) x
        rw [h3] at h1
        exact h1

theorem pySortRev_perm (ltb : α → α → Bool) (l : List α) :
    List.Perm (pySortRev ltb l) l := by
  unfold pySortRev
  exact ((List.reverse_perm _).trans (cpListSort_perm ltb l.reverse)).trans
    (List.reverse_perm l)

/-! ## Lemmas about NaN scores -/

theorem numAdd_eq_nan (a b : PyNum) :
    numAdd a b = PyNum.nan ↔ a = PyNum.nan ∨ b = PyNum.nan := by
  cases a <;> cases b <;> simp [numAdd]

theorem numMul_eq_nan (n : ℕ) (s : PyNum) :
    numMul n s = PyNum.nan ↔ s = PyNum.nan := by
  cases s <;> simp [numMul]

theorem calcPatentScore_nan (cfg : List Category) (p : PyDict) :
    calcPatentScore cfg p = PyNum.nan ↔
      ∃ cat ∈ cfg, cat.score = PyNum.nan := by
  have hgen : ∀ (cfgs : List Category) (acc : PyNum),
      (cfgs.foldl
        (fun acc cat =>
          numAdd acc (numMul
            (cat.keywords.foldl
              (fun cnt kw =>
                if 0 < findallCount (pyLower kw).data (combinedText p).data
                then cnt + 1 else cnt) 0)
            cat.score)) acc = PyNum.nan ↔
        acc = PyNum.nan ∨ ∃ cat ∈ cfgs, cat.score = PyNum.nan) := by
    intro cfgs
    induction cfgs with
    | nil => intro acc; simp
    | cons c cs ih =>
      intro acc
      simp only [List.foldl_cons]
      rw [ih, numAdd_eq_nan, numMul_eq_nan]
      simp only [List.mem_cons]
      constructor
      · rintro (⟨ha | hc⟩ | ⟨cat, hcat, hsc⟩)
        · exact Or.inl ha
        · exact Or.inr ⟨c, Or.inl rfl, hc⟩
        · exact Or.inr ⟨cat, Or.inr hcat, hsc⟩
      · rintro (ha | ⟨cat, hcat | hcat, hsc⟩)
        · exact Or.inl (Or.inl ha)
        · exact Or.inl (Or.inr (hcat ▸ hsc))
        · exact Or.inr ⟨cat, hcat, hsc⟩
  have hbody : calcPatentScore cfg p =
      cfg.foldl
        (fun acc cat =>
          numAdd acc (numMul
            (cat.keywords.foldl
              (fun cnt kw =>
                if 0 < findallCount (pyLower kw).data (combinedText p).data
                then cnt + 1 else cnt) 0)
            cat.score)) (PyNum.i 0) := rfl
  rw [hbody, hgen]
  simp

theorem runSplitAsc_allNan :
    ∀ (xs : List PyDict) (x : PyDict), scoreKey x = vNan →
      (∀ a ∈ xs, scoreKey a = vNan) →
      runSplitAsc scoreLtb x xs = (x :: xs, []) := by
  intro xs
  induction xs with
  | nil => intro x _ _; simp [runSplitAsc]
  | cons y ys ih =>
    intro x hx hxs
    have hy : scoreKey y = vNan := hxs y (List.mem_cons_self _ _)
    have hlt : scoreLtb y x = false := by
      unfold scoreLtb
      rw [hy, hx]
      rfl
    unfold runSplitAsc
    rw [hlt]
    simp only [Bool.false_eq_true, if_false]
    rw [ih y hy (fun a ha => hxs a (List.mem_cons_of_mem _ ha))]

theorem cpListSort_allNan (l : List PyDict)
    (h : ∀ a ∈ l, scoreKey a = vNan) : cpListSort scoreLtb l = l := by
  cases l with
  | nil => rfl
  | cons x xs =>
    cases xs with
    | nil => simp [cpListSort]
    | cons y ys =>
      have hx : scoreKey x = vNan := h x (List.mem_cons_self _ _)
      have hy : scoreKey y = vNan := h y (List.mem_cons_of_mem _ (List.mem_cons_self _ _))
      have hd : scoreLtb y x = false := by
        unfold scoreLtb
        rw [hy, hx]
        rfl
      have hrun : runSplitAsc scoreLtb x (y :: ys) = (x :: y :: ys, []) :=
        runSplitAsc_allNan (y :: ys) x hx
          (fun a ha => h a (List.mem_cons_of_mem _ ha))
      have hred : cpListSort scoreLtb (x :: y :: ys) =
          List.foldl (binInsert scoreLtb) (runSplitAsc scoreLtb x (y :: ys)).1
            (runSplitAsc scoreLtb x (y :: ys)).2 := by
        simp [cpListSort, hd]
      rw [hred, hrun]
      rfl

theorem pySortRev_allNan (l : List PyDict)
    (h : ∀ a ∈ l, scoreKey a = vNan) : pySortRev scoreLtb l = l := by
  unfold pySortRev
  rw [cpListSort_allNan l.reverse (fun a ha => h a (List.mem_reverse.mp ha))]
  exact List.reverse_reverse l

/-! ## Lemmas about `calculate_relevance_scores` -/

theorem calcScores_perm (cfg : List Category) (ps : List PyDict) :
    List.Perm (calcScores cfg ps)
      (ps.map (fun p =>
        setKey p "relevance_score" (pyOfNum (calcPatentScore cfg p)))) := by
  unfold calcScores
  rw [foldl_append_eq_map]
  simp only [List.nil_append]
  exact pySortRev_perm scoreLtb _

theorem mem_calcScores (cfg : List Category) (ps : List PyDict) (q : PyDict)
    (h : q ∈ calcScores cfg ps) :
    ∃ p ∈ ps, q = setKey p "relevance_score" (pyOfNum (calcPatentScore cfg p)) := by
  have hm := (calcScores_perm cfg ps).mem_iff.mp h
  rcases List.mem_map.mp hm with ⟨p, hp, heq⟩
  exact ⟨p, hp, heq.symm⟩

theorem scoreKey_setKey (p : PyDict) (v : PyVal) :
    scoreKey (setKey p "relevance_score" v) = v := by
  unfold scoreKey dictGetD
  rw [lookup_setKey_self]
  rfl

theorem isNanScore_setKey (p : PyDict) (v : PyVal) :
    isNanScore (setKey p "relevance_score" v) = (v == vNan) := by
  unfold isNanScore
  rw [lookup_setKey_self]
  cases v <;> rfl

/-! ## Lemmas about the batch loop and Python slicing -/

theorem runBatch_length (fetch : PyVal → FetchOutcome) :
    ∀ (l : List PyDict) (st : Store) (r : List PyDict × Store × List PyDict),
      runBatch st fetch l = some r → r.1.length = l.length := by
  intro l
  induction l with
  | nil =>
    intro st r h
    simp only [runBatch] at h
    cases h
    rfl
  | cons p ps ih =>
    intro st r h
    simp only [runBatch] at h
    split at h
    · cases h
    · rename_i e st' inv heq
      split at h
      · cases h
      · rename_i es st'' log hq
        cases h
        simp only [List.length_cons]
        rw [ih st' (es, st'', log) hq]

theorem runBatch_fetched_mem (fetch : PyVal → FetchOutcome) :
    ∀ (l : List PyDict) (st : Store) (r : List PyDict × Store × List PyDict),
      runBatch st fetch l = some r → ∀ x ∈ r.2.2, x ∈ l := by
  intro l
  induction l with
  | nil =>
    intro st r h
    simp only [runBatch] at h
    cases h
    intro x hx
    cases hx
  | cons p ps ih =>
    intro st r h
    simp only [runBatch] at h
    split at h
    · cases h
    · rename_i e st' inv heq
      split at h
      · cases h
      · rename_i es st'' log hq
        cases h
        intro x hx
        simp only at hx
        cases inv with
        | true =>
          simp only [if_true] at hx
          rcases List.mem_cons.mp hx with rfl | hxq
          · exact List.mem_cons_self _ _
          · exact List.mem_cons_of_mem _ (ih st' (es, st'', log) hq x hxq)
        | false =>
          simp only [Bool.false_eq_true, if_false] at hx
          exact List.mem_cons_of_mem _ (ih st' (es, st'', log) hq x hx)

theorem mem_pySlice (l : List α) (s e : ℤ) (x : α) (h : x ∈ pySlice l s e) :
    x ∈ l := by
  unfold pySlice at h
  exact List.mem_of_mem_drop (List.mem_of_mem_take h)

theorem pySlice_window (l : List α) (k b : ℤ) (hk : 0 ≤ k) (hb : 0 ≤ b) :
    pySlice l k (min (k + b) (l.length : ℤ)) = (l.drop k.toNat).take b.toNat := by
  simp only [pySlice]
  have hn : (0 : ℤ) ≤ (l.length : ℤ) := by omega
  rw [if_neg (by omega : ¬ k < 0)]
  rw [if_neg (by omega : ¬ min (k + b) (l.length : ℤ) < 0)]
  have hmin : min (min (k + b) (l.length : ℤ)) (l.length : ℤ) =
      min (k + b) (l.length : ℤ) := by omega
  rw [hmin]
  by_cases hkn : k ≤ (l.length : ℤ)
  · have h1 : min k (l.length : ℤ) = k := by omega
    rw [h1]
    apply List.take_eq_take.mpr
    rw [List.length_drop]
    omega
  · have h1 : min k (l.length : ℤ) = (l.length : ℤ) := by omega
    rw [h1]
    have h2 : ((l.length : ℤ)).toNat = l.length := by omega
    rw [h2, List.drop_length]
    have h3 : l.drop k.toNat = [] := List.drop_eq_nil_of_le (by omega)
    rw [h3]
    simp

theorem pySlice_all (l : List α) (k : ℤ) (hk : 0 ≤ k) :
    pySlice l k (l.length : ℤ) = l.drop k.toNat := by
  simp only [pySlice]
  have hn : (0 : ℤ) ≤ (l.length : ℤ) := by omega
  rw [if_neg (by omega : ¬ k < 0)]
  rw [if_neg (by omega : ¬ (l.length : ℤ) < 0)]
  rw [min_self]
  by_cases hkn : k ≤ (l.length : ℤ)
  · have h1 : min k (l.length : ℤ) = k := by omega
    rw [h1]
    apply List.take_of_length_le
    rw [List.length_drop]
    omega
  · have h1 : min k (l.length : ℤ) = (l.length : ℤ) := by omega
    rw [h1]
    have h2 : ((l.length : ℤ)).toNat = l.length := by omega
    rw [h2, List.drop_length]
    have h3 : l.drop k.toNat = [] := List.drop_eq_nil_of_le (by omega)
    rw [h3]
    simp

/-! ## Shape of the Fetcher's enrichment -/

theorem fetch_enrich_shape (st : Store) (fetch : PyVal → FetchOutcome)
    (p e : PyDict) (st' : Store) (b : Bool)
    (h : fetchAbstractForPatent st fetch p = some (e, st', b)) :
    ∃ kvs, e = pyUpdate p kvs ∧ kvs.map Prod.fst = enrichmentKeys := by
  simp only [fetchAbstractForPatent] at h
  split at h
  · cases h
  · cases h
    exact ⟨cachedEnrichment _, rfl, rfl⟩
  · split at h
    · cases h
      exact ⟨fetchedEnrichment _, rfl, rfl⟩
    · cases h
      exact ⟨failureEnrichment _ "error_saved", rfl, rfl⟩
    · cases h
      exact ⟨failureEnrichment _ "timeout_saved", rfl, rfl⟩
    · cases h
      exact ⟨failureEnrichment _ "exception_saved", rfl, rfl⟩

/-! ## The claims -/

/-- C1: for a patent whose id has a stored AbstractRecord with a non-null,
non-blank (after stripping) Abstract, `_fetch_abstract_for_patent` returns the
enrichment built from the cached record with `abstract_source = cached_file`,
never invokes the external fetch collaborator (the oracle is arbitrary and the
invoked flag is false), and leaves the Store unchanged. -/
theorem claim_C1 (st : Store) (fetch : PyVal → FetchOutcome) (p rec : PyDict)
    (s : String)
    (hrec : st (pyFStr (dictGet p "id")) = some rec)
    (habs : dictGet rec "Abstract" = vStr s)
    (hblank : stripL s.data ≠ []) :
    fetchAbstractForPatent st fetch p =
      some (pyUpdate p (cachedEnrichment rec), st, false) := by
  have hne : rec ≠ [] := by
    intro h0
    subst h0
    simp [dictGet, List.lookup] at habs
  have hdec : cacheDecision (some rec) = some true := by
    have hstep : cacheDecision (some rec) =
        if rec = [] then some false
        else
          match dictGet rec "Abstract" with
          | vNone => some false
          | vStr s => some (decide (stripL s.data ≠ []))
          | vInt n => if n = 0 then some false else none
          | vNan => none := rfl
    rw [hstep, if_neg hne, habs]
    simp [hblank]
  simp only [fetchAbstractForPatent]
  rw [hrec, hdec]
  simp

/-- Witness for C1 at a concrete Store, oracle and record. -/
theorem claim_C1_witness :
    fetchAbstractForPatent c1Store fetchTimeoutO c1Pat =
      some (pyUpdate c1Pat (cachedEnrichment c1Rec), c1Store, false) :=
  claim_C1 c1Store fetchTimeoutO c1Pat c1Rec " An abstract. " (by decide)
    (by decide) (by decide)

/-- C2: the Merger produces exactly one output record per input record,
preserving input order - it is the elementwise left join `joinOne` of the
input list, so no record is dropped or added. -/
theorem claim_C2 (abstracts : Store) (patents : List PyDict) :
    integrateAbstracts abstracts patents = patents.map (joinOne abstracts) ∧
    (integrateAbstracts abstracts patents).length = patents.length := by
  have h : integrateAbstracts abstracts patents =
      patents.map (joinOne abstracts) := by
    unfold integrateAbstracts
    rw [foldl_append_eq_map (joinOne abstracts) patents []]
    simp
  refine ⟨h, ?_⟩
  rw [h]
  exact List.length_map _ _

/-- C3: the merge is deterministic and idempotent - it never writes the Store
(the Store after a run is the input Store), so a second run over the Store
left by the first produces the same output list and byte-identical serialized
output; the embedded `integrate_abstracts` contains no fetch call. -/
theorem claim_C3 (abstracts : Store) (patents : List PyDict) :
    (integrateRun abstracts patents).2 = abstracts ∧
    (integrateRun ((integrateRun abstracts patents).2) patents).1 =
      (integrateRun abstracts patents).1 ∧
    serializeRecords ((integrateRun ((integrateRun abstracts patents).2)
        patents).1) =
      serializeRecords ((integrateRun abstracts patents).1) :=
  ⟨rfl, rfl, rfl⟩

/-- C4: a patent id absent from the Store yields the not-found placeholder:
null abstract fields, retry count 0, the fixed error text, and
`abstract_source = not_found`. -/
theorem claim_C4 (abstracts : Store) (p : PyDict)
    (h : storeLookupVal abstracts (dictGet p "id") = none) :
    dictGet (joinOne abstracts p) "abstract" = vNone ∧
    dictGet (joinOne abstracts p) "abstract_title" = vNone ∧
    dictGet (joinOne abstracts p) "abstract_url" = vNone ∧
    dictGet (joinOne abstracts p) "abstract_retry_count" = vInt 0 ∧
    dictGet (joinOne abstracts p) "abstract_error" =
      vStr "Abstract file not found" ∧
    dictGet (joinOne abstracts p) "abstract_source" = vStr "not_found" := by
  have hj : joinOne abstracts p = pyUpdate p notFoundEnrichment := by
    unfold joinOne
    rw [h]
  have hnd : (notFoundEnrichment.map Prod.fst).Nodup := by decide
  have g1 := lookup_pyUpdate_mem notFoundEnrichment p "abstract" vNone hnd
    (by decide)
  have g2 := lookup_pyUpdate_mem notFoundEnrichment p "abstract_title" vNone
    hnd (by decide)
  have g3 := lookup_pyUpdate_mem notFoundEnrichment p "abstract_url" vNone hnd
    (by decide)
  have g4 := lookup_pyUpdate_mem notFoundEnrichment p "abstract_retry_count"
    (vInt 0) hnd (by decide)
  have g5 := lookup_pyUpdate_mem notFoundEnrichment p "abstract_error"
    (vStr "Abstract file not found") hnd (by decide)
  have g6 := lookup_pyUpdate_mem notFoundEnrichment p "abstract_source"
    (vStr "not_found") hnd (by decide)
  simp only [hj]
  unfold dictGet
  rw [g1, g2, g3, g4, g5, g6]
  exact ⟨rfl, rfl, rfl, rfl, rfl, rfl⟩

/-- Witness for C4 at a concrete record and the empty Store. -/
theorem claim_C4_witness :
    dictGet (joinOne emptyStore c4Pat) "abstract" = vNone ∧
    dictGet (joinOne emptyStore c4Pat) "abstract_title" = vNone ∧
    dictGet (joinOne emptyStore c4Pat) "abstract_url" = vNone ∧
    dictGet (joinOne emptyStore c4Pat) "abstract_retry_count" = vInt 0 ∧
    dictGet (joinOne emptyStore c4Pat) "abstract_error" =
      vStr "Abstract file not found" ∧
    dictGet (joinOne emptyStore c4Pat) "abstract_source" = vStr "not_found" :=
  claim_C4 emptyStore c4Pat rfl

/-- C5: the Batch Resolver hands exactly the clamped half-open window
`[start-1, start-1+size)` of the validated list (through the end when the
size is unbounded) to the Abstract Fetcher, in input order; the returned
sequence has one entry per window element and external fetches happen only
for window elements. -/
theorem claim_C5 (st : Store) (fetch : PyVal → FetchOutcome)
    (patents : List PyDict) (startNumber : ℤ) (batchSize : Option ℤ)
    (hstart : 1 ≤ startNumber)
    (hbs : ∀ b, batchSize = some b → 0 ≤ b)
    (res : ExtractResult)
    (hres : extractPatentData st fetch patents startNumber batchSize =
      some res) :
    (∀ b, batchSize = some b →
      res.touched =
        ((patents.filter validatePatentRecord).drop
          (startNumber - 1).toNat).take b.toNat) ∧
    (batchSize = none →
      res.touched =
        (patents.filter validatePatentRecord).drop (startNumber - 1).toNat) ∧
    res.enhanced.length = res.touched.length ∧
    ∀ x ∈ res.fetched, x ∈ res.touched := by
  have hmax : max 0 (startNumber - 1) = startNumber - 1 := by omega
  simp only [extractPatentData] at hres
  rcases Option.map_eq_some'.mp hres with ⟨r, hrb, hresr⟩
  subst hresr
  refine ⟨?_, ?_, ?_, ?_⟩
  · intro b hb'
    subst hb'
    have hb := hbs b rfl
    show pySlice (patents.filter validatePatentRecord)
        (max 0 (startNumber - 1))
        (min (max 0 (startNumber - 1) + b)
          ((patents.filter validatePatentRecord).length : ℤ)) = _
    rw [hmax]
    exact pySlice_window (patents.filter validatePatentRecord)
      (startNumber - 1) b (by omega) hb
  · intro hb'
    subst hb'
    show pySlice (patents.filter validatePatentRecord)
        (max 0 (startNumber - 1))
        ((patents.filter validatePatentRecord).length : ℤ) = _
    rw [hmax]
    exact pySlice_all (patents.filter validatePatentRecord)
      (startNumber - 1) (by omega)
  · exact runBatch_length fetch _ st r hrb
  · intro x hx
    exact runBatch_fetched_mem fetch _ st r hrb x hx

/-- Witness for C5: start 3, size 2 on five valid records touches exactly the
records at 1-based positions 3 and 4 and fetches nothing when all are
cached. -/
theorem claim_C5_witness :
    extractPatentData c5Store fetchTimeoutO c5Pats 3 (some 2) = some c5Res ∧
    c5Res.touched = [mkPat "P3", mkPat "P4"] ∧
    c5Res.enhanced.length = 2 ∧
    c5Res.fetched = [] := by
  have hex : extractPatentData c5Store fetchTimeoutO c5Pats 3 (some 2) =
      some c5Res := rfl
  have h := claim_C5 c5Store fetchTimeoutO c5Pats 3 (some 2) (by norm_num)
    (fun b hb => by cases hb; norm_num) c5Res hex
  have ht := h.1 2 rfl
  refine ⟨hex, ht.trans (by decide), ?_, by decide⟩
  rw [h.2.2.1, ht]
  decide

/-- C8: a record whose id or result_link is untruthy, or whose result_link
fails the host/path check, is rejected by validation and therefore never
appears in any batch window and is never handed to the Abstract Fetcher. -/
theorem claim_C8 (p : PyDict)
    (hbad : truthy (dictGet p "id") = false ∨
      truthy (dictGet p "result_link") = false ∨
      validateUrl (dictGet p "result_link") = false) :
    validatePatentRecord p = false ∧
    ∀ (st : Store) (fetch : PyVal → FetchOutcome) (patents : List PyDict)
      (startNumber : ℤ) (batchSize : Option ℤ) (res : ExtractResult),
      extractPatentData st fetch patents startNumber batchSize = some res →
      p ∉ res.touched ∧ p ∉ res.fetched := by
  have hval : validatePatentRecord p = false := by
    unfold validatePatentRecord
    rcases hbad with h | h | h
    · simp [h]
    · simp [h]
    · simp [h]
  refine ⟨hval, ?_⟩
  intro st fetch patents startNumber batchSize res hres
  simp only [extractPatentData] at hres
  rcases Option.map_eq_some'.mp hres with ⟨r, hrb, hresr⟩
  subst hresr
  constructor
  · intro hmem
    simp only at hmem
    have hp := mem_pySlice _ _ _ p hmem
    have hvt := (List.mem_filter.mp hp).2
    rw [hval] at hvt
    cases hvt
  · intro hmem
    simp only at hmem
    have h1 := runBatch_fetched_mem fetch _ st r hrb p hmem
    have hp := mem_pySlice _ _ _ p h1
    have hvt := (List.mem_filter.mp hp).2
    rw [hval] at hvt
    cases hvt

/-- Witness for C8: the wrong-host record of the claim is rejected and a
batch run over it touches and fetches nothing. -/
theorem claim_C8_witness :
    validatePatentRecord c8Bad = false ∧
    extractPatentData emptyStore fetchTimeoutO [c8Bad] 1 none = some c8Res ∧
    c8Bad ∉ c8Res.touched ∧ c8Bad ∉ c8Res.fetched := by
  have h := claim_C8 c8Bad (Or.inr (Or.inr (by decide)))
  have hex : extractPatentData emptyStore fetchTimeoutO [c8Bad] 1 none =
      some c8Res := rfl
  have h2 := h.2 emptyStore fetchTimeoutO [c8Bad] 1 none c8Res hex
  exact ⟨h.1, hex, h2.1, h2.2⟩

/-- C9: on a cache miss, a failing external fetch never escapes the resolver:
each failure outcome yields `some` result carrying the matching
abstract_source tag and explanatory error, persists an AbstractRecord with
null Title and Abstract and the diagnostic Error to the Store (successes are
persisted too), and the batch loop continues with the remaining records. -/
theorem claim_C9 (st : Store) (fetch : PyVal → FetchOutcome) (p : PyDict)
    (hmiss : cacheDecision (st (pyFStr (dictGet p "id"))) = some false) :
    (∀ e, fetch (dictGet p "result_link") = FetchOutcome.errorExit e →
      fetchAbstractForPatent st fetch p =
        some (pyUpdate p (failureEnrichment (pyStrip e) "error_saved"),
          storeSet st (pyFStr (dictGet p "id"))
            (failureRecord (dictGet p "result_link") (pyStrip e)), true)) ∧
    (fetch (dictGet p "result_link") = FetchOutcome.timeout →
      fetchAbstractForPatent st fetch p =
        some (pyUpdate p (failureEnrichment "Timeout while fetching abstract"
            "timeout_saved"),
          storeSet st (pyFStr (dictGet p "id"))
            (failureRecord (dictGet p "result_link")
              "Timeout while fetching abstract"), true)) ∧
    (∀ m, fetch (dictGet p "result_link") = FetchOutcome.exc m →
      fetchAbstractForPatent st fetch p =
        some (pyUpdate p (failureEnrichment m "exception_saved"),
          storeSet st (pyFStr (dictGet p "id"))
            (failureRecord (dictGet p "result_link") m), true)) ∧
    (∀ d, fetch (dictGet p "result_link") = FetchOutcome.success d →
      fetchAbstractForPatent st fetch p =
        some (pyUpdate p (fetchedEnrichment d),
          storeSet st (pyFStr (dictGet p "id")) d, true)) ∧
    (∀ (ps : List PyDict) (r : PyDict × Store × Bool),
      fetchAbstractForPatent st fetch p = some r →
      runBatch st fetch (p :: ps) =
        (runBatch r.2.1 fetch ps).map (fun q =>
          (r.1 :: q.1, q.2.1, if r.2.2 then p :: q.2.2 else q.2.2))) := by
  have hred : fetchAbstractForPatent st fetch p =
      match fetch (dictGet p "result_link") with
      | FetchOutcome.success d =>
        some (pyUpdate p (fetchedEnrichment d),
          storeSet st (pyFStr (dictGet p "id")) d, true)
      | FetchOutcome.errorExit stderr =>
        some (pyUpdate p (failureEnrichment (pyStrip stderr) "error_saved"),
          storeSet st (pyFStr (dictGet p "id"))
            (failureRecord (dictGet p "result_link") (pyStrip stderr)), true)
      | FetchOutcome.timeout =>
        some (pyUpdate p (failureEnrichment "Timeout while fetching abstract"
            "timeout_saved"),
          storeSet st (pyFStr (dictGet p "id"))
            (failureRecord (dictGet p "result_link")
              "Timeout while fetching abstract"), true)
      | FetchOutcome.exc msg =>
        some (pyUpdate p (failureEnrichment msg "exception_saved"),
          storeSet st (pyFStr (dictGet p "id"))
            (failureRecord (dictGet p "result_link") msg), true) := by
    simp only [fetchAbstractForPatent]
    rw [hmiss]
  refine ⟨?_, ?_, ?_, ?_, ?_⟩
  · intro e he
    rw [hred, he]
  · intro he
    rw [hred, he]
  · intro m hm
    rw [hred, hm]
  · intro d hd
    rw [hred, hd]
  · intro ps r hr
    rcases r with ⟨e, st', inv⟩
    simp only [runBatch]
    rw [hr]
    show (match runBatch st' fetch ps with
        | none => none
        | some (es, st'', log) =>
          some (e :: es, st'', if inv = true then p :: log else log)) =
      (runBatch st' fetch ps).map (fun q =>
        (e :: q.1, q.2.1, if inv = true then p :: q.2.2 else q.2.2))
    cases runBatch st' fetch ps with
    | none => rfl
    | some q =>
      rcases q with ⟨es, st'', log⟩
      rfl

/-- Witness for C9: the timeout outcome on an uncached record. -/
theorem claim_C9_witness :
    fetchAbstractForPatent emptyStore fetchTimeoutO c9Pat =
      some (pyUpdate c9Pat (failureEnrichment "Timeout while fetching abstract"
          "timeout_saved"),
        storeSet emptyStore "X1"
          (failureRecord (dictGet c9Pat "result_link")
            "Timeout while fetching abstract"), true) :=
  (claim_C9 emptyStore fetchTimeoutO c9Pat rfl).2.1 rfl

/-- C10: enrichment never modifies or drops an original field - when a
record's keys avoid the six enrichment names, both the Merger's join and the
Fetcher's enrichment agree with the input on every original binding. -/
theorem claim_C10 (p : PyDict)
    (hdisjoint : ∀ kv ∈ p, kv.1 ∉ enrichmentKeys) :
    (∀ (abstracts : Store) (kv : String × PyVal), kv ∈ p →
      List.lookup kv.1 (joinOne abstracts p) = List.lookup kv.1 p) ∧
    (∀ (st : Store) (fetch : PyVal → FetchOutcome) (e : PyDict) (st' : Store)
      (b : Bool), fetchAbstractForPatent st fetch p = some (e, st', b) →
      ∀ kv ∈ p, List.lookup kv.1 e = List.lookup kv.1 p) := by
  constructor
  · intro abstracts kv hkv
    unfold joinOne
    cases storeLookupVal abstracts (dictGet p "id") with
    | some ad =>
      apply lookup_pyUpdate_notin
      intro kv' hkv' heq
      apply hdisjoint kv hkv
      rw [heq]
      have : kv'.1 ∈ (integratedEnrichment ad).map Prod.fst :=
        List.mem_map_of_mem Prod.fst hkv'
      exact this
    | none =>
      apply lookup_pyUpdate_notin
      intro kv' hkv' heq
      apply hdisjoint kv hkv
      rw [heq]
      have : kv'.1 ∈ notFoundEnrichment.map Prod.fst :=
        List.mem_map_of_mem Prod.fst hkv'
      exact this
  · intro st fetch e st' b hf kv hkv
    rcases fetch_enrich_shape st fetch p e st' b hf with ⟨kvs, rfl, hkeys⟩
    apply lookup_pyUpdate_notin
    intro kv' hkv' heq
    apply hdisjoint kv hkv
    rw [heq, ← hkeys]
    exact List.mem_map_of_mem Prod.fst hkv'

/-- Witness for C10: the title binding survives both the Merger's not-found
join and the Fetcher's timeout enrichment. -/
theorem claim_C10_witness :
    List.lookup "title" (joinOne emptyStore c10Pat) =
      List.lookup "title" c10Pat ∧
    List.lookup "title" c10Enh = List.lookup "title" c10Pat := by
  have h := claim_C10 c10Pat (by decide)
  constructor
  · exact h.1 emptyStore ("title", vStr "T") (by decide)
  · exact h.2 emptyStore fetchTimeoutO c10Enh c10StoreAfter true rfl
      ("title", vStr "T") (by decide)

/-- C6 counterexample: the claim scores distinct keywords against the plain
concatenation of title and abstract; the source counts keyword-list entries
(a duplicated entry counts twice) against the space-joined text
(`f"{title} {abstract}"`).  The keyword `ab` occurs in `"a" ++ "b"` so the
claim formula yields 5 while the code computes 0 on the text `a b`; and with
the keyword list `["neural", "neural"]` on title `neural` the code computes
10 while the claim's distinct-keyword formula yields 5. -/
theorem claim_C6_cex :
    (calcPatentScore c6Cfg c6Rec = PyNum.i 0 ∧
      claimSpecScore c6Cfg c6Rec = PyNum.i 5) ∧
    (calcPatentScore c6DupCfg c6DupRec = PyNum.i 10 ∧
      claimSpecScore c6DupCfg c6DupRec = PyNum.i 5) := by decide

/-- C6 amended: for every configuration and record the code's score equals
the sum over categories of (number of keyword-list entries occurring
case-insensitively in the title, a space, and the abstract concatenated)
times the category weight - multiple occurrences in the text still count
once; and the claim's worked example scores 10. -/
theorem claim_C6_amended :
    (∀ (cfg : List Category) (p : PyDict),
      calcPatentScore cfg p = amendedSpecScore cfg p) ∧
    calcPatentScore c6AICfg c6AIRec = PyNum.i 10 := by
  constructor
  · intro cfg p
    have hcode : calcPatentScore cfg p = cfg.foldl
        (fun acc cat =>
          numAdd acc (numMul
            (cat.keywords.foldl
              (fun cnt kw =>
                if 0 < findallCount (pyLower kw).data (combinedText p).data
                then cnt + 1 else cnt) 0)
            cat.score)) (PyNum.i 0) := rfl
    have hspec : amendedSpecScore cfg p = cfg.foldl
        (fun acc cat =>
          numAdd acc (numMul
            (cat.keywords.countP (fun kw =>
              occursB kw
                (pyFStr (pyOrEmpty (dictGetD p "title" (vStr ""))) ++ " " ++
                 pyFStr (pyOrEmpty (dictGetD p "abstract" (vStr ""))))))
            cat.score)) (PyNum.i 0) := rfl
    rw [hcode, hspec]
    apply List.foldl_ext
    intro acc cat hcat
    rw [score_cat_count p cat.keywords]
  · decide

/-- C7 counterexample: a NaN category weight makes every record's score NaN
(`0 * nan = nan` in Python), and those NaN-scored records are not excluded
from the scorer's sorted return (the ranked sequence
`calculate_relevance_scores` produces): both records of the input are still
present, NaN score attached. -/
theorem claim_C7_cex :
    calcScores c7CexCfg c7CexInp =
      [setKey (c7Rec "kb") "relevance_score" vNan,
       setKey (c7Rec "kx") "relevance_score" vNan] ∧
    isNanScore ((calcScores c7CexCfg c7CexInp).getD 0 []) = true := by decide

/-- C7 amended: the orchestrator's sorted output excludes NaN-scored records
and is sorted by relevance_score descending, containing exactly the scored
records with a defined score; NaN scores arise exactly when the configuration
holds a NaN weight, in which case every score is NaN, the scorer's in-place
sort is the identity and its returned list keeps every (NaN-scored) record at
its original input position; with a NaN-free configuration no undefined
scores exist at all. -/
theorem claim_C7_amended (cfg : List Category) (patents : List PyDict) :
    (∀ q ∈ orchestratorSorted (calcScores cfg patents),
      isNanScore q = false) ∧
    List.Perm (orchestratorSorted (calcScores cfg patents))
      (orchestratorValid (calcScores cfg patents)) ∧
    List.Pairwise (fun a b => ∃ x y : ℤ,
      scoreKey a = vInt x ∧ scoreKey b = vInt y ∧ y ≤ x)
      (orchestratorSorted (calcScores cfg patents)) ∧
    ((∃ cat ∈ cfg, cat.score = PyNum.nan) →
      calcScores cfg patents = patents.map (fun p =>
        setKey p "relevance_score" (pyOfNum (calcPatentScore cfg p)))) ∧
    ((∀ cat ∈ cfg, cat.score ≠ PyNum.nan) →
      ∀ q ∈ calcScores cfg patents, isNanScore q = false) := by
  have hvalid : ∀ q ∈ orchestratorValid (calcScores cfg patents),
      isNanScore q = false := by
    intro q hq
    have := (List.mem_filter.mp hq).2
    simpa using this
  have hmemvalid : ∀ q ∈ orchestratorSorted (calcScores cfg patents),
      q ∈ orchestratorValid (calcScores cfg patents) := by
    intro q hq
    exact (insSortDesc_perm _).mem_iff.mp hq
  have hint : ∀ q ∈ orchestratorSorted (calcScores cfg patents),
      ∃ z : ℤ, scoreKey q = vInt z := by
    intro q hq
    have hqv := hmemvalid q hq
    have hnn := hvalid q hqv
    have hqs : q ∈ calcScores cfg patents := (List.mem_filter.mp hqv).1
    rcases mem_calcScores cfg patents q hqs with ⟨p, _, rfl⟩
    cases hsc : calcPatentScore cfg p with
    | i z =>
      refine ⟨z, ?_⟩
      rw [scoreKey_setKey]
      rfl
    | nan =>
      rw [isNanScore_setKey, hsc] at hnn
      simp [pyOfNum] at hnn
  refine ⟨?_, ?_, ?_, ?_, ?_⟩
  · intro q hq
    exact hvalid q (hmemvalid q hq)
  · exact insSortDesc_perm _
  · have hPW := pairwise_insSortDesc (orchestratorValid (calcScores cfg patents))
    refine List.Pairwise.imp_of_mem ?_ hPW
    intro a b ha hb hR
    rcases hint a ha with ⟨x, hx⟩
    rcases hint b hb with ⟨y, hy⟩
    refine ⟨x, y, hx, hy, ?_⟩
    rw [hx, hy] at hR
    simpa [pyGeB] using hR
  · rintro ⟨cat, hcat, hsc⟩
    have hmap : patents.foldl
        (fun acc p =>
          acc ++ [setKey p "relevance_score"
            (pyOfNum (calcPatentScore cfg p))]) [] =
        patents.map (fun p =>
          setKey p "relevance_score" (pyOfNum (calcPatentScore cfg p))) := by
      rw [foldl_append_eq_map]
      simp
    have hnan : ∀ a ∈ patents.map (fun p =>
        setKey p "relevance_score" (pyOfNum (calcPatentScore cfg p))),
        scoreKey a = vNan := by
      intro a ha
      rcases List.mem_map.mp ha with ⟨p, _, rfl⟩
      rw [scoreKey_setKey]
      have : calcPatentScore cfg p = PyNum.nan :=
        (calcPatentScore_nan cfg p).mpr ⟨cat, hcat, hsc⟩
      rw [this]
      rfl
    show pySortRev scoreLtb _ = _
    rw [hmap]
    exact pySortRev_allNan _ hnan
  · intro hno q hq
    rcases mem_calcScores cfg patents q hq with ⟨p, _, rfl⟩
    rw [isNanScore_setKey]
    cases hsc : calcPatentScore cfg p with
    | i z => rfl
    | nan =>
      rcases (calcPatentScore_nan cfg p).mp hsc with ⟨cat, hcat, hsc'⟩
      exact absurd hsc' (hno cat hcat)

/-- Witness for C7 amended: a NaN-free run keeps only defined scores in the
sorted output, and a NaN-weighted run returns the scored records in input
order. -/
theorem claim_C7_amended_witness :
    isNanScore ((orchestratorSorted (calcScores c7WCfg c7WInp)).getD 0 []) =
      false ∧
    calcScores c7CexCfg c7CexInp = c7CexInp.map (fun p =>
      setKey p "relevance_score" (pyOfNum (calcPatentScore c7CexCfg p))) := by
  constructor
  · exact (claim_C7_amended c7WCfg c7WInp).1 _ (by decide)
  · exact (claim_C7_amended c7CexCfg c7CexInp).2.2.2.1
      ⟨⟨"B", PyNum.nan, ["kb"]⟩, List.mem_cons_self _ _, rfl⟩
